import Mathlib

/-!
Verification of the partner-sync ingestion core (`src/ingest.py` and
`src/handlers/sftp_handler.py`).

Python strings are modelled as lists of unicode scalar characters
(`Str := List Char`), bytes as `Fin 256`, and Python JSON-like values by the
inductive type `PyVal`.  Python `dict`s are modelled as association lists in
insertion order: assignment to an existing key replaces the value in place,
assignment to a fresh key appends at the end, exactly as CPython dicts behave.
Every definition is translated from the Python source; definitions that
instead follow the specification's words (for refinement comparisons) say so
in their doc comments.
-/

set_option maxHeartbeats 1000000

namespace PartnerSync

/-- A byte, as read from a sample file. -/
abbrev Byte := Fin 256

/-- A Python string: the sequence of its unicode scalar values. -/
abbrev Str := List Char

/-- Shorthand turning a Lean string literal into the `Str` model. -/
def sl (s : String) : Str := s.toList

/-- The NUL character `"\x00"`. -/
def nulChar : Char := Char.ofNat 0

/-- A Python value as produced by `json.loads` / manipulated by `ingest.py`:
`null` is Python `None`; dicts are insertion-ordered association lists.
A float is represented by the literal text that `float()` accepted — no
floating-point arithmetic occurs anywhere in the verified code paths, so the
numeric value of a float is never inspected. -/
inductive PyVal where
  | null : PyVal
  | bool (b : Bool) : PyVal
  | int (n : Int) : PyVal
  | float (lit : Str) : PyVal
  | str (s : Str) : PyVal
  | list (l : List PyVal) : PyVal
  | dict (l : List (Str × PyVal)) : PyVal

/-- A Python dict, insertion ordered. -/
abbrev PyDict := List (Str × PyVal)

/-- Python dict assignment `d[k] = v` for any value type: replaces in place
when the key exists, appends otherwise. -/
def assocPut {β : Type _} : List (Str × β) → Str → β → List (Str × β)
  | [], k, v => [(k, v)]
  | (k', v') :: rest, k, v =>
    if k' = k then (k, v) :: rest else (k', v') :: assocPut rest k v

/-- Python dict assignment on `PyVal` dicts. -/
def assocSet : PyDict → Str → PyVal → PyDict := assocPut

/-- Python `dict(pairs)` / repeated assignment: fold `assocSet` over pairs. -/
def pyDictOf (pairs : List (Str × PyVal)) : PyDict :=
  pairs.foldl (fun acc kv => assocSet acc kv.1 kv.2) []

/-- Python `out.update(other)`: assign every pair of `other` into `out`. -/
def dictUpdate (out other : PyDict) : PyDict :=
  other.foldl (fun acc kv => assocSet acc kv.1 kv.2) out

/-- Is this value a Python `str`? (`isinstance(v, str)`) -/
def PyVal.isStr : PyVal → Bool
  | .str _ => true
  | _ => false

/-- Is this value a Python `list`? (`isinstance(v, list)`) -/
def PyVal.isList : PyVal → Bool
  | .list _ => true
  | _ => false

/-- Python `v is None`. -/
def PyVal.isNull : PyVal → Bool
  | .null => true
  | _ => false

/-- Python `v == ""` (true exactly for the empty string; Python equality of a
non-string value with `""` is false). -/
def PyVal.isEmptyStr : PyVal → Bool
  | .str [] => true
  | _ => false

/-! ## Python string primitives used by `ingest.py` -/

/-- Python `str.isspace` for one character: ASCII whitespace, the file/group
record separators 0x1c–0x1f, 0x85, and the Unicode space separators. -/
def pyIsSpace (c : Char) : Bool :=
  c.toNat ∈ [0x09, 0x0A, 0x0B, 0x0C, 0x0D, 0x20,
              0x1C, 0x1D, 0x1E, 0x1F, 0x85, 0xA0, 0x1680,
              0x2000, 0x2001, 0x2002, 0x2003, 0x2004, 0x2005, 0x2006,
              0x2007, 0x2008, 0x2009, 0x200A, 0x2028, 0x2029, 0x202F,
              0x205F, 0x3000]

/-- Python `s.strip()` with no argument: remove leading and trailing
whitespace. -/
def pyStrip (s : Str) : Str :=
  ((s.dropWhile pyIsSpace).reverse.dropWhile pyIsSpace).reverse

/-- Does `s.strip()` leave something (i.e. is `s` non-blank)?  This is the
truthiness test `if ln.strip()` from the Python source. -/
def strNonblank (s : Str) : Bool := s.any (fun c => !pyIsSpace c)

/-- Python line-break characters recognised by `str.splitlines`. -/
def isLineBreak (c : Char) : Bool :=
  c.toNat ∈ [0x0A, 0x0D, 0x0B, 0x0C, 0x1C, 0x1D, 0x1E, 0x85, 0x2028, 0x2029]

/-- Python `str.splitlines()`: split at every line-break character, treating
`"\r\n"` as a single break, with no empty trailing line. -/
def pySplitlines : Str → List Str
  | [] => []
  | '\r' :: '\n' :: rest => [] :: pySplitlines rest
  | c :: rest =>
    if isLineBreak c then [] :: pySplitlines rest
    else
      match pySplitlines rest with
      | [] => [[c]]
      | s :: ss => (c :: s) :: ss

/-- Python `s.split(sep)` for a one-character separator (no maxsplit):
`"".split(sep) = [""]`, empty fields are kept. -/
def pySplitChar (sep : Char) : Str → List Str
  | [] => [[]]
  | c :: rest =>
    if c = sep then [] :: pySplitChar sep rest
    else
      match pySplitChar sep rest with
      | [] => [[c]]
      | s :: ss => (c :: s) :: ss

/-- Python `s.replace(a, b)` for one-character `a`/`b`. -/
def strReplaceChar (a b : Char) (s : Str) : Str :=
  s.map (fun c => if c = a then b else c)

/-- Python `s.replace(t, "")` for a one-character `t`: drop every occurrence. -/
def strRemoveChar (t : Char) (s : Str) : Str := s.filter (fun c => c ≠ t)

/-- Python `s.startswith(p)`. -/
def strStartsWith : Str → Str → Bool
  | _, [] => true
  | [], _ :: _ => false
  | c :: s, p :: ps => c = p && strStartsWith s ps

/-! ## Encoding & text recovery (`read_file_bytes_to_text`, ingest.py 33–45) -/

/-- Group bytes into 16-bit units (little- or big-endian); a dangling final
byte decodes, under `errors="replace"`, to U+FFFD. -/
def utf16Units (le : Bool) : List Nat → List Nat
  | [] => []
  | [_] => [0xFFFD]
  | a :: b :: rest =>
    (if le then a + 256 * b else 256 * a + b) :: utf16Units le rest

/-- Combine UTF-16 code units into scalar values, replacing unpaired
surrogates by U+FFFD (`errors="replace"`). -/
def utf16Combine : List Nat → List Nat
  | [] => []
  | [u] => if 0xD800 ≤ u ∧ u ≤ 0xDFFF then [0xFFFD] else [u]
  | u :: v :: rest2 =>
    if 0xD800 ≤ u ∧ u ≤ 0xDBFF then
      if 0xDC00 ≤ v ∧ v ≤ 0xDFFF then
        (0x10000 + (u - 0xD800) * 0x400 + (v - 0xDC00)) :: utf16Combine rest2
      else 0xFFFD :: utf16Combine (v :: rest2)
    else if 0xDC00 ≤ u ∧ u ≤ 0xDFFF then 0xFFFD :: utf16Combine (v :: rest2)
    else u :: utf16Combine (v :: rest2)

/-- `bytes.decode("utf-16", errors="replace")` on input whose first two bytes
are a UTF-16 BOM: the BOM selects the endianness and is consumed. -/
def decodeUtf16Replace (b : List Byte) : Str :=
  match b with
  | x :: _ :: rest =>
    let le := x.val = 0xFF
    (utf16Combine (utf16Units le (rest.map Fin.val))).map Char.ofNat
  | _ => []

/-- Is a continuation byte (`0x80–0xBF`)? -/
def utf8Cont (x : Nat) : Bool := 0x80 ≤ x ∧ x < 0xC0

/-- Strict UTF-8 decoding to scalar values; rejects truncated sequences,
overlong forms and surrogates, as CPython's strict `utf-8` codec does. -/
def utf8DecodeNat : List Nat → Option (List Nat)
  | [] => some []
  | x :: rest =>
    if x < 0x80 then (utf8DecodeNat rest).map (x :: ·)
    else if x < 0xC2 then Option.none
    else if x < 0xE0 then
      match rest with
      | [] => Option.none
      | y :: r2 =>
        if utf8Cont y then
          (utf8DecodeNat r2).map (((x - 0xC0) * 0x40 + (y - 0x80)) :: ·)
        else Option.none
    else if x < 0xF0 then
      match rest with
      | y :: z :: r3 =>
        if utf8Cont y && utf8Cont z then
          let cp := (x - 0xE0) * 0x1000 + (y - 0x80) * 0x40 + (z - 0x80)
          if cp < 0x800 ∨ (0xD800 ≤ cp ∧ cp < 0xE000) then Option.none
          else (utf8DecodeNat r3).map (cp :: ·)
        else Option.none
      | _ => Option.none
    else if x < 0xF5 then
      match rest with
      | y :: z :: w :: r4 =>
        if utf8Cont y && utf8Cont z && utf8Cont w then
          let cp := (x - 0xF0) * 0x40000 + (y - 0x80) * 0x1000 +
                    (z - 0x80) * 0x40 + (w - 0x80)
          if cp < 0x10000 ∨ 0x10FFFF < cp then Option.none
          else (utf8DecodeNat r4).map (cp :: ·)
        else Option.none
      | _ => Option.none
    else Option.none

/-- `bytes.decode("utf-8")` (strict). -/
def decodeUtf8 (b : List Byte) : Option Str :=
  (utf8DecodeNat (b.map Fin.val)).map (List.map Char.ofNat)

/-- `bytes.decode("utf-8-sig")` (strict): strip one leading UTF-8 BOM if
present, then decode as strict UTF-8. -/
def decodeUtf8Sig (b : List Byte) : Option Str :=
  if b.take 3 = [0xEF, 0xBB, 0xBF] then decodeUtf8 (b.drop 3)
  else decodeUtf8 b

/-- The cp1252 character map; `Option.none` for the five unassigned bytes
(0x81, 0x8D, 0x8F, 0x90, 0x9D), on which the strict codec errors. -/
def cp1252Map (x : Nat) : Option Nat :=
  if x < 0x80 then some x
  else if 0xA0 ≤ x then some x
  else
    match x with
    | 0x80 => some 0x20AC
    | 0x82 => some 0x201A
    | 0x83 => some 0x0192
    | 0x84 => some 0x201E
    | 0x85 => some 0x2026
    | 0x86 => some 0x2020
    | 0x87 => some 0x2021
    | 0x88 => some 0x02C6
    | 0x89 => some 0x2030
    | 0x8A => some 0x0160
    | 0x8B => some 0x2039
    | 0x8C => some 0x0152
    | 0x8E => some 0x017D
    | 0x91 => some 0x2018
    | 0x92 => some 0x2019
    | 0x93 => some 0x201C
    | 0x94 => some 0x201D
    | 0x95 => some 0x2022
    | 0x96 => some 0x2013
    | 0x97 => some 0x2014
    | 0x98 => some 0x02DC
    | 0x99 => some 0x2122
    | 0x9A => some 0x0161
    | 0x9B => some 0x203A
    | 0x9C => some 0x0153
    | 0x9E => some 0x017E
    | 0x9F => some 0x0178
    | _ => Option.none

/-- `bytes.decode("cp1252")` (strict). -/
def decodeCp1252 (b : List Byte) : Option Str :=
  (b.mapM (fun x => cp1252Map x.val)).map (List.map Char.ofNat)

/-- `bytes.decode("latin-1")` (strict — but total: every byte is assigned). -/
def decodeLatin1 (b : List Byte) : Option Str :=
  some (b.map (fun x => Char.ofNat x.val))

/-- `bytes.decode("latin-1", errors="replace")` — identical to the strict
latin-1 decoding, which already accepts every byte. -/
def decodeLatin1Replace (b : List Byte) : Str :=
  b.map (fun x => Char.ofNat x.val)

/-- `b.startswith(b"\xff\xfe") or b.startswith(b"\xfe\xff")`. -/
def hasUtf16BOM (b : List Byte) : Bool :=
  match b with
  | x :: y :: _ => (x.val = 0xFF ∧ y.val = 0xFE) ∨ (x.val = 0xFE ∧ y.val = 0xFF)
  | _ => false

/-- The candidate-encoding loop of `read_file_bytes_to_text` (ingest.py
40–44): first codec among utf-8-sig, utf-8, cp1252, latin-1 that decodes
without error. -/
def tryCandidates (b : List Byte) : Option Str :=
  decodeUtf8Sig b <|> decodeUtf8 b <|> decodeCp1252 b <|> decodeLatin1 b

/-- `read_file_bytes_to_text` (ingest.py 33–45): UTF-16 BOM branch decodes as
UTF-16 (replace) and strips NULs; otherwise the candidate loop, with a lossy
latin-1 fallback. -/
def read_file_bytes_to_text (b : List Byte) : Str :=
  if hasUtf16BOM b then strRemoveChar nulChar (decodeUtf16Replace b)
  else
    match tryCandidates b with
    | some t => t
    | Option.none => decodeLatin1Replace b

/-! ## Delimiter detection (`detect_csv_delimiter`, ingest.py 47–55) -/

/-- The candidate delimiters, in the order the Python loop tries them:
`[',', '\t', ';', '|']`. -/
def delimCandidates : List Char := [',', '\t', ';', '|']

/-- `detect_csv_delimiter` (ingest.py 47–55): count each candidate over the
first 10 non-empty lines (or the first 2000 characters when there is no
non-empty line) and keep the first candidate with the strictly highest
count, starting from `(',', -1)`. -/
def detect_csv_delimiter (text : Str) : Char :=
  let lines := (pySplitlines text).filter strNonblank
  let sample :=
    if lines ≠ [] then List.intercalate ['\n'] (lines.take 10)
    else text.take 2000
  (delimCandidates.foldl
    (fun acc c =>
      let cnt : Int := (sample.count c : Nat)
      if cnt > acc.2 then (c, cnt) else acc)
    (',', (-1 : Int))).1

/-- The text sampled by `detect_csv_delimiter` for counting. -/
def delimSample (text : Str) : Str :=
  let lines := (pySplitlines text).filter strNonblank
  if lines ≠ [] then List.intercalate ['\n'] (lines.take 10)
  else text.take 2000

/-- Position of a candidate in the Python loop's candidate order. -/
def delimIdx : Char → Nat
  | ',' => 0
  | '\t' => 1
  | ';' => 2
  | _ => 3

/-! ## Path flattener (`flatten_record`, ingest.py 57–72) -/

/-- `f"{prefix}.{k}" if prefix else k`. -/
def joinKey (pre k : Str) : Str := if pre = [] then k else pre ++ '.' :: k

/-- The `"[i]"` suffix used for list elements. -/
def brackIdx (i : Nat) : Str := '[' :: (toString i).toList ++ [']']

mutual

/-- The inner `_flatten` of `flatten_record` (ingest.py 59–71). -/
def flattenVal : PyVal → Str → List (Str × PyVal)
  | .dict l, pre => flattenDictEntries l pre
  | .list l, pre => flattenListItems l 0 pre
  | v, pre => [(pre, v)]

/-- `_flatten` on the items of a dict. -/
def flattenDictEntries : List (Str × PyVal) → Str → List (Str × PyVal)
  | [], _ => []
  | (k, v) :: rest, pre => flattenVal v (joinKey pre k) ++ flattenDictEntries rest pre

/-- `_flatten` on the elements of a list; `f"{prefix}[{i}]"` and `f"[{i}]"`
coincide, so the index path is a plain append. -/
def flattenListItems : List PyVal → Nat → Str → List (Str × PyVal)
  | [], _, _ => []
  | v :: rest, i, pre => flattenVal v (pre ++ brackIdx i) ++ flattenListItems rest (i + 1) pre

end

/-- `flatten_record` (ingest.py 57–72): the flattened pairs, gathered into a
dict. -/
def flatten_record (rec : PyDict) : PyDict :=
  pyDictOf (flattenVal (.dict rec) [])

/-! ## Three-tier lookup (`get_nested_value`, ingest.py 74–91) -/

/-- The last-resort lookup of `get_nested_value` (ingest.py 89–90):
`obj.get(path.replace(".", "_"))`, giving `None` on a miss. -/
def underscoreFallback (obj : PyDict) (path : Str) : PyVal :=
  (List.lookup (strReplaceChar '.' '_' path) obj).getD .null

/-- The segment walk of `get_nested_value` (ingest.py 83–91). -/
def walkParts (obj : PyDict) (path : Str) : List Str → PyVal → PyVal
  | [], cur => cur
  | part :: rest, cur =>
    match cur with
    | .dict l =>
      match List.lookup part l with
      | some v => walkParts obj path rest v
      | Option.none => underscoreFallback obj path
    | _ => underscoreFallback obj path

/-- `get_nested_value` (ingest.py 74–91): falsy path returns the object;
then literal-key lookup; then the dotted walk with the underscore-joined
fallback. -/
def get_nested_value (obj : PyDict) (path : Str) : PyVal :=
  if path = [] then .dict obj
  else
    match List.lookup path obj with
    | some v => v
    | Option.none => walkParts obj path (pySplitChar '.' path) (.dict obj)

/-! ## Python `str()` / `repr()` for the value model

Needed because `apply_mappings` applies `str(...)` to any non-string phone
value.  `str` and `repr` agree on every type below except `str` itself.
String repr is modelled as single-quote wrapping with backslash escaping of
the quote and backslash; Python additionally escapes control characters,
which no verified code path exercises.  The repr of a float is its stored
literal. -/

/-- The apostrophe character. -/
def quoteChar : Char := Char.ofNat 39

/-- The backslash character. -/
def backslashChar : Char := Char.ofNat 92

/-- Opening curly brace. -/
def obChar : Char := Char.ofNat 0x7B

/-- Closing curly brace. -/
def cbChar : Char := Char.ofNat 0x7D

/-- Python `repr` of a string (simplified escaping, see section comment). -/
def reprStr (s : Str) : Str :=
  quoteChar ::
    (s.flatMap (fun c =>
      if c = backslashChar ∨ c = quoteChar then [backslashChar, c] else [c]))
    ++ [quoteChar]

mutual

/-- Python `repr(v)`. -/
def pyRepr : PyVal → Str
  | .null => sl "None"
  | .bool b => if b then sl "True" else sl "False"
  | .int n => (toString n).toList
  | .float lit => lit
  | .str s => reprStr s
  | .list l => '[' :: reprItems l ++ [']']
  | .dict d => obChar :: reprEntries d ++ [cbChar]

/-- Comma-joined reprs of list elements. -/
def reprItems : List PyVal → Str
  | [] => []
  | [v] => pyRepr v
  | v :: rest => pyRepr v ++ ',' :: ' ' :: reprItems rest

/-- Comma-joined `key: value` reprs of dict entries. -/
def reprEntries : List (Str × PyVal) → Str
  | [] => []
  | [(k, v)] => reprStr k ++ ':' :: ' ' :: pyRepr v
  | (k, v) :: rest => reprStr k ++ ':' :: ' ' :: pyRepr v ++ ',' :: ' ' :: reprEntries rest

end

/-- Python `str(v)`: identical to `repr(v)` except on strings. -/
def pyStr : PyVal → Str
  | .str s => s
  | v => pyRepr v

/-! ## Scalar coercion of `apply_mappings` (ingest.py 456–473) -/

/-- Python `vs.isdigit()`, restricted to ASCII digits.  (Python's `isdigit`
also accepts some non-ASCII digit characters, on which the subsequent
`int(vs)` may fail and leave the value unchanged; no claim involves them.) -/
def pyIsDigit (s : Str) : Bool := !s.isEmpty && s.all Char.isDigit

/-- Decimal value of an ASCII digit string. -/
def decimalNat (s : Str) : Nat :=
  s.foldl (fun acc c => acc * 10 + (c.toNat - 48)) 0

/-- Consume a Python float digitpart continuation: digits with single
internal underscores between digits. -/
def dpTail : Str → Str
  | [] => []
  | '_' :: c :: rest => if c.isDigit then dpTail rest else '_' :: c :: rest
  | c :: rest => if c.isDigit then dpTail rest else c :: rest

/-- Consume a Python float digitpart from the front (`Option.none` when the
input does not start with a digit); returns the remainder. -/
def consumeDP : Str → Option Str
  | c :: rest => if c.isDigit then some (dpTail rest) else Option.none
  | [] => Option.none

/-- Accept an optional exponent part (`e`/`E`, optional sign, digitpart)
ending the literal. -/
def pyFloatExp (s : Str) : Bool :=
  match s with
  | [] => true
  | e :: rest =>
    if e = 'e' ∨ e = 'E' then
      let rest2 :=
        match rest with
        | c :: r => if c = '+' ∨ c = '-' then r else rest
        | [] => rest
      match consumeDP rest2 with
      | some [] => true
      | _ => false
    else false

/-- Accept a decimal float body (after the sign): optional integer part,
optional point and fraction, optional exponent, with at least one mantissa
digit. -/
def pyFloatMantissa (s : Str) : Bool :=
  match consumeDP s with
  | some r1 =>
    match r1 with
    | '.' :: r2 =>
      (match consumeDP r2 with
       | some r3 => pyFloatExp r3
       | Option.none => pyFloatExp r2)
    | _ => pyFloatExp r1
  | Option.none =>
    match s with
    | '.' :: r2 =>
      (match consumeDP r2 with
       | some r3 => pyFloatExp r3
       | Option.none => false)
    | _ => false

/-- Does Python `float(s)` succeed?  Strip whitespace, optional sign, then
`inf`/`infinity`/`nan` (case-insensitive) or a decimal literal. -/
def pyFloatParses (s : Str) : Bool :=
  let t := pyStrip s
  let body :=
    match t with
    | c :: r => if c = '+' ∨ c = '-' then r else t
    | [] => t
  let lower := body.map Char.toLower
  lower = sl "inf" ∨ lower = sl "infinity" ∨ lower = sl "nan" ∨ pyFloatMantissa body

/-- The basic type conversion of `apply_mappings` (ingest.py 458–473): a
stripped all-digit string becomes an integer, else a float if `float()`
accepts it, else the stripped string; non-strings pass through. -/
def coerceScalar (v : PyVal) : PyVal :=
  match v with
  | .str s0 =>
    let vs := pyStrip s0
    if pyIsDigit vs then .int (decimalNat vs)
    else if pyFloatParses vs then .float vs
    else .str vs
  | v => v

/-! ## Canonical builder (`apply_mappings`, ingest.py 437–497) -/

/-- One mapping entry of the Stage-1 `fields` list as `apply_mappings` reads
it: `f.get("partner_field")` and `f.get("mapped_to")`, each possibly
`None`/missing.  (Non-string `mapped_to` values never occur in mapping
sets and are not modelled.) -/
structure FieldEntry where
  partner_field : Option Str
  mapped_to : Option Str

/-- `get_nested_value(rec, pf)` where `pf` may be `None` (a falsy path
returns the whole record). -/
def resolveValue (rec : PyDict) : Option Str → PyVal
  | Option.none => .dict rec
  | some p => get_nested_value rec p

/-- Nested-path assembly (ingest.py 474–481): split on `.`, create or
overwrite intermediate dicts, assign at the leaf. -/
def setPath : PyDict → List Str → PyVal → PyDict
  | canon, [], _ => canon
  | canon, [last], v => assocSet canon last v
  | canon, part :: p2 :: rest, v =>
    let sub : PyDict :=
      match List.lookup part canon with
      | some (.dict d) => d
      | _ => []
    assocSet canon part (.dict (setPath sub (p2 :: rest) v))

/-- The body of the per-field loop of `apply_mappings` (ingest.py 450–481)
applied to one entry: skip falsy targets, skip absent/empty values, coerce,
assemble. -/
def applyEntry (rec : PyDict) (canon : PyDict) (f : FieldEntry) : PyDict :=
  match f.mapped_to with
  | Option.none => canon
  | some mapped =>
    if mapped = [] then canon
    else
      let v := resolveValue rec f.partner_field
      if v.isNull || v.isEmptyStr then canon
      else setPath canon (pySplitChar '.' mapped) (coerceScalar v)

/-- Dotted key `customer_contact`. -/
def ccKey : Str := sl "customer_contact"

/-- Key `phone`. -/
def phoneKey : Str := sl "phone"

/-- Key `destination`. -/
def destKey : Str := sl "destination"

/-- Key `origin`. -/
def originKey : Str := sl "origin"

/-- `if "<k>" not in canon: canon["<k>"] = canon.get("<k>", {})`
(ingest.py 484–487). -/
def ensureKeyDict (canon : PyDict) (k : Str) : PyDict :=
  match List.lookup k canon with
  | some _ => canon
  | Option.none => assocSet canon k (.dict [])

/-- The phone post-step of `apply_mappings` (ingest.py 489–494): a non-None,
non-string value at `customer_contact.phone` is replaced by `str(...)` of
itself. -/
def phoneToString (canon : PyDict) : PyDict :=
  match List.lookup ccKey canon with
  | some (.dict cc) =>
    match List.lookup phoneKey cc with
    | some ph =>
      if ph.isNull || ph.isStr then canon
      else assocSet canon ccKey (.dict (assocSet cc phoneKey (.str (pyStr ph))))
    | Option.none => canon
  | _ => canon

/-- The truthy `mapped_to` targets (ingest.py 444). -/
def mappedTargets (fields : List FieldEntry) : List Str :=
  fields.filterMap (fun f =>
    match f.mapped_to with
    | some t => if t = [] then Option.none else some t
    | Option.none => Option.none)

/-- One canonical object from one record (the body of the `for rec in
records` loop, ingest.py 448–496). -/
def buildOne (fields : List FieldEntry) (needsDest needsOrigin : Bool)
    (rec : PyDict) : PyDict :=
  let canon := fields.foldl (applyEntry rec) []
  let canon := if needsDest then ensureKeyDict canon destKey else canon
  let canon := if needsOrigin then ensureKeyDict canon originKey else canon
  phoneToString canon

/-- `apply_mappings` (ingest.py 437–497). -/
def apply_mappings (records : List PyDict) (fields : List FieldEntry) :
    List PyDict :=
  let ts := mappedTargets fields
  let needsDest := ts.any (fun t => strStartsWith t (sl "destination."))
  let needsOrigin := ts.any (fun t => strStartsWith t (sl "origin."))
  records.map (buildOne fields needsDest needsOrigin)

/-! ## XML flattening (`flatten_element_to_dict`, ingest.py 93–102) -/

/-- An XML element: tag, optional text, child elements. -/
inductive XmlElem where
  | mk (tag : Str) (text : Option Str) (children : List XmlElem)

/-- The child elements of an XML element. -/
def XmlElem.children : XmlElem → List XmlElem
  | .mk _ _ c => c

/-- `flatten_element_to_dict`'s loop over the children of an element:
a childless element contributes its stripped text under the dotted tag
path, a container recurses and merges via `out.update(...)`. -/
def flattenXmlChildren : List XmlElem → Str → PyDict → PyDict
  | [], _, out => out
  | .mk tag txt kids :: rest, pre, out =>
    let key := joinKey pre tag
    let out2 :=
      if kids.isEmpty then assocSet out key (.str (pyStrip (txt.getD [])))
      else dictUpdate out (flattenXmlChildren kids key [])
    flattenXmlChildren rest pre out2

/-- `flatten_element_to_dict(root)` (ingest.py 93–102, default prefix). -/
def flatten_element_to_dict (el : XmlElem) : PyDict :=
  flattenXmlChildren el.children [] []

/-- The XML tier of `parse_sample_to_records` (ingest.py 139–148): a
successfully parsed document yields exactly one record, the flattened root. -/
def xmlTierRecords (root : XmlElem) : List PyVal :=
  [.dict (flatten_element_to_dict root)]

/-! ## JSON tier of `parse_sample_to_records` (ingest.py 119–136) -/

/-- The conventional container keys, in the order the Python tuple lists
them: `("shipments", "items", "data", "records", "payload")`. -/
def containerKeys : List Str :=
  [sl "shipments", sl "items", sl "data", sl "records", sl "payload"]

/-- The `for candidate in (...)` loop (ingest.py 127–129): first candidate
key present with a list value. -/
def candidateLoop : List Str → PyDict → Option (List PyVal)
  | [], _ => Option.none
  | c :: cs, d =>
    match List.lookup c d with
    | some (.list l) => some l
    | _ => candidateLoop cs d

/-- `[v for v in obj.values() if isinstance(v, list)]` followed by `[0]`
(ingest.py 130–132): the first top-level list value. -/
def firstListValue : PyDict → Option (List PyVal)
  | [] => Option.none
  | (_, .list l) :: _ => some l
  | _ :: rest => firstListValue rest

/-- The dict case of the JSON tier (ingest.py 126–133). -/
def jsonObjectBranch (d : PyDict) (maxRows : Nat) : List PyVal :=
  match candidateLoop containerKeys d with
  | some l => l.take maxRows
  | Option.none =>
    match firstListValue d with
    | some l => l.take maxRows
    | Option.none => [.dict d]

/-- The whole JSON tier (ingest.py 120–136) applied to a successfully parsed
value: a top-level list is capped directly, a dict goes through the object
branch, anything else falls through (`Option.none`) to the later tiers. -/
def jsonRecords (v : PyVal) (maxRows : Nat) : Option (List PyVal) :=
  match v with
  | .list l => some (l.take maxRows)
  | .dict d => some (jsonObjectBranch d maxRows)
  | _ => Option.none

mutual

/-- Modelled from the claim's words for the object fallback: "the first
list-valued property found anywhere in the object (at any nesting depth)",
searched in document order, depth-first — the search in one value. -/
def firstListDeepVal : PyVal → Option (List PyVal)
  | .list l => some l
  | .dict d => firstListDeepEntries d
  | _ => Option.none

/-- The deep search over a dict's entries, in insertion order. -/
def firstListDeepEntries : PyDict → Option (List PyVal)
  | [] => Option.none
  | (_, v) :: rest =>
    match firstListDeepVal v with
    | some l => some l
    | Option.none => firstListDeepEntries rest

end

/-- Modelled from the claim's words: container-key search, then the first
list-valued property at any nesting depth, then wrap the object. -/
def jsonObjectUnwrapClaim (d : PyDict) (maxRows : Nat) : List PyVal :=
  match candidateLoop containerKeys d with
  | some l => l.take maxRows
  | Option.none =>
    match firstListDeepEntries d with
    | some l => l.take maxRows
    | Option.none => [.dict d]

/-- The object-branch rule stated in the amended claim's words (top-level
fallback): the first container key whose value is a list; else the first
top-level list-valued property; else the object wrapped as a single record.
Stated via `find?` for comparison with the loop translation. -/
def jsonObjectUnwrapSpec (d : PyDict) (maxRows : Nat) : List PyVal :=
  match containerKeys.find? (fun c => ((List.lookup c d).map PyVal.isList).getD false) with
  | some c =>
    match List.lookup c d with
    | some (.list l) => l.take maxRows
    | _ => []
  | Option.none =>
    match d.find? (fun kv => kv.2.isList) with
    | some (_, .list l) => l.take maxRows
    | some _ => []
    | Option.none => [.dict d]

/-! ## CSV tier (ingest.py 150–182) -/

/-- A raw row as `csv.DictReader` yields it: pairs of key and value, where
the key is `None` for overflow fields (the reader's restkey) and a value is
`None` when the row is short (the reader's restval). -/
abbrev CsvRawRow := List (Option Str × Option Str)

/-- Column-name cleaning (ingest.py 164):
`str(k).strip().replace("﻿", "").replace("￾", "")`. -/
def cleanCsvKey (k : Str) : Str :=
  strRemoveChar (Char.ofNat 0xFFFE) (strRemoveChar (Char.ofNat 0xFEFF) (pyStrip k))

/-- Build the `clean` dict for one reader row (ingest.py 160–165), skipping
`None` keys. -/
def cleanCsvRow (r : CsvRawRow) : List (Str × Option Str) :=
  r.foldl
    (fun clean kv =>
      match kv.1 with
      | Option.none => clean
      | some k => assocPut clean (cleanCsvKey k) kv.2)
    []

/-- `any((v or "").strip() for v in clean.values())` (ingest.py 166). -/
def csvRowNonblank (clean : List (Str × Option Str)) : Bool :=
  clean.any (fun kv => strNonblank (kv.2.getD []))

/-- The `DictReader` consumption loop (ingest.py 156–167): stop at the row
cap, clean each row, keep only non-blank rows.  The reader itself is a
library; its output rows are the argument. -/
def processCsvRows (rows : List CsvRawRow) (maxRows : Nat) :
    List (List (Str × Option Str)) :=
  ((rows.take maxRows).map cleanCsvRow).filter csvRowNonblank

/-- The manual-split header (ingest.py 172):
`[h.strip().replace("﻿", "").replace("￾", "") for h in
lines[0].split(delim)]`.  (Note: the code strips after splitting here, via
`h.strip()` — same cleaning as the reader path.) -/
def manualHeader (line0 : Str) (delim : Char) : List Str :=
  (pySplitChar delim line0).map cleanCsvKey

/-- One manual-split row (ingest.py 175–178): split, strip each part, pad to
the header length, pair positionally. -/
def manualRow (header : List Str) (delim : Char) (ln : Str) : List (Str × Str) :=
  let parts := (pySplitChar delim ln).map pyStrip
  let parts :=
    if parts.length < header.length then
      parts ++ List.replicate (header.length - parts.length) []
    else parts
  header.enum.foldl (fun rec ih => assocPut rec ih.2 (parts.getD ih.1 [])) []

/-- The manual-split fallback (ingest.py 171–182): header from the first
line, then at most `max_rows` data lines, dropping blank rows. -/
def manualSplitRows (lines : List Str) (delim : Char) (maxRows : Nat) :
    List (List (Str × Str)) :=
  match lines with
  | [] => []
  | line0 :: restLines =>
    let header := manualHeader line0 delim
    ((restLines.take maxRows).map (manualRow header delim)).filter
      (fun rec => rec.any (fun kv => strNonblank kv.2))

/-- The last-resort tier (ingest.py 185): each non-empty line becomes a
`{"raw_line": ln}` record, capped. -/
def opaqueRecords (lines : List Str) (maxRows : Nat) : List PyDict :=
  (lines.take maxRows).map (fun ln => [(sl "raw_line", PyVal.str ln)])

/-! ## Entry of `parse_sample_to_records` and the handlers' existence check -/

/-- A sample input: either the path does not exist, or it holds bytes. -/
inductive SampleFile where
  | missing
  | present (bytes : List Byte)

/-- The entry of `parse_sample_to_records` (ingest.py 107–117): a missing
path returns `([], "")` — it does not raise; otherwise the bytes are decoded
and handed to the tier dispatch (lines 119–185), which is embedded per tier
above and abstracted here as `parseText`.  The `Except` result records
whether an error is raised to the caller. -/
def parse_sample_to_records (parseText : Str → List PyVal) :
    SampleFile → Except Str (List PyVal × Str)
  | .missing => .ok ([], [])
  | .present b =>
    let txt := read_file_bytes_to_text b
    .ok (parseText txt, txt)

/-- The existence check of `handle_sftp_sample`
(src/handlers/sftp_handler.py 70–78): a missing path raises
`FileNotFoundError`; an existing file is processed (the pandas-based CSV
handling is outside this development and abstracted as `process`). -/
def handle_sftp_sample (process : List Byte → PyVal) :
    SampleFile → Except Str PyVal
  | .missing => .error (sl "file not found")
  | .present b => .ok (process b)

/-! ## Schema validation (`validate_list`, ingest.py 502–522) -/

/-- One entry of the results list of `validate_list`. -/
structure ValidationResult where
  index : Nat
  valid : Bool
  errors : Option Str
  object : PyVal

/-- The `for i, obj in enumerate(canonical_list)` loop (ingest.py 515–521).
`check obj = Option.none` models `jsonschema.validate` passing;
`some msg` models it raising `ValidationError(msg)` — the only two outcomes
the Python code distinguishes. -/
def validateLoop (check : PyVal → Option Str) :
    Nat → List PyVal → List ValidationResult × Nat
  | _, [] => ([], 0)
  | i, obj :: rest =>
    let next := validateLoop check (i + 1) rest
    match check obj with
    | Option.none => (⟨i, true, Option.none, obj⟩ :: next.1, next.2 + 1)
    | some msg => (⟨i, false, some msg, obj⟩ :: next.1, next.2)

/-- `validate_list` (ingest.py 502–522).  `schemaLoad = Option.none` models
`json.loads(Path(schema_file).read_text())` raising (schema file missing or
unparsable), on which the function raises `RuntimeError`; otherwise every
object is checked in order and the results plus the valid count are
returned. -/
def validate_list (schemaLoad : Option PyVal) (check : PyVal → PyVal → Option Str)
    (canonical_list : List PyVal) : Except Str (List ValidationResult × Nat) :=
  match schemaLoad with
  | Option.none => .error (sl "Failed to load canonical schema file")
  | some schema => .ok (validateLoop (check schema) 0 canonical_list)

/-! # Theorems -/

/-! ## C10 — empty path returns the whole record -/

/-- C10: for every record, calling `get_nested_value` with an empty (falsy)
path returns the entire record object itself, not an absent result. -/
theorem c10_empty_path_returns_record (obj : PyDict) :
    get_nested_value obj [] = PyVal.dict obj := rfl

/-! ## C5 — missing input -/

/-- C5 counterexample: `parse_sample_to_records` on a missing path returns
the pair `([], "")` — a fallback result, not an error surfaced to the
caller, contradicting the claim that sample parsing treats a missing input
as fatal. -/
theorem c5_counterexample :
    parse_sample_to_records (fun _ => []) SampleFile.missing =
      Except.ok ([], []) := rfl

/-- C5 (amended): a missing source path is surfaced immediately as an error
on the handler path (`handle_sftp_sample` raises `FileNotFoundError`), but
`parse_sample_to_records` itself returns the silent fallback `([], "")`
without raising. -/
theorem c5_missing_input_behavior :
    (∀ process, handle_sftp_sample process SampleFile.missing =
      Except.error (sl "file not found")) ∧
    (∀ parseText, parse_sample_to_records parseText SampleFile.missing =
      Except.ok ([], [])) :=
  ⟨fun _ => rfl, fun _ => rfl⟩

/-! ## C1 — reading bytes to text -/

/-- Removing a character removes every occurrence of it. -/
theorem not_mem_strRemoveChar (c : Char) (s : Str) : c ∉ strRemoveChar c s := by
  simp [strRemoveChar]

/-- The strict latin-1 candidate accepts every byte sequence, so the
candidate loop of `read_file_bytes_to_text` always succeeds. -/
theorem tryCandidates_isSome (b : List Byte) : (tryCandidates b).isSome = true := by
  unfold tryCandidates
  cases decodeUtf8Sig b <;> cases decodeUtf8 b <;> cases decodeCp1252 b <;>
    simp [decodeLatin1, Option.orElse]

/-- C1 counterexample: the byte sequence `61 00 62` has no UTF-16 BOM, is
valid UTF-8, and decodes to text with an embedded NUL character — the NUL
stripping is applied only in the UTF-16-BOM branch. -/
theorem c1_counterexample :
    nulChar ∈ read_file_bytes_to_text [0x61, 0x00, 0x62] := by decide

/-- C1 (amended): `read_file_bytes_to_text` never fails — the candidate
loop always returns before the lossy fallback — and in the UTF-16-BOM
branch the returned text contains no NUL characters; in the non-BOM
branches the first successful candidate's text is returned as is (so NUL
bytes survive as embedded NUL characters there). -/
theorem c1_decode_total_and_bom_branch_nul_free :
    (∀ b : List Byte, (tryCandidates b).isSome = true) ∧
    (∀ b : List Byte, hasUtf16BOM b = true →
      nulChar ∉ read_file_bytes_to_text b) ∧
    (∀ b : List Byte, hasUtf16BOM b = false →
      ∃ t, tryCandidates b = some t ∧ read_file_bytes_to_text b = t) := by
  refine ⟨tryCandidates_isSome, ?_, ?_⟩
  · intro b h
    simp only [read_file_bytes_to_text, h, if_true]
    exact not_mem_strRemoveChar _ _
  · intro b h
    obtain ⟨t, ht⟩ := Option.isSome_iff_exists.mp (tryCandidates_isSome b)
    exact ⟨t, ht, by simp [read_file_bytes_to_text, h, ht]⟩

/-- C1 witness: the amended theorem applied at concrete inputs — a UTF-16
little-endian file whose decoded text is NUL-free, and a BOM-less file on
which the candidate loop succeeds. -/
theorem c1_witness :
    (hasUtf16BOM [0xFF, 0xFE, 0x41, 0x00] = true ∧
      nulChar ∉ read_file_bytes_to_text [0xFF, 0xFE, 0x41, 0x00]) ∧
    (hasUtf16BOM [0x61] = false ∧
      ∃ t, tryCandidates [0x61] = some t ∧
        read_file_bytes_to_text [0x61] = t) :=
  ⟨⟨by decide, c1_decode_total_and_bom_branch_nul_free.2.1 _ (by decide)⟩,
   ⟨by decide, c1_decode_total_and_bom_branch_nul_free.2.2 _ (by decide)⟩⟩

/-! ## C8 — the row cap -/

/-- Ten integer records, for the claim's concrete JSON-array example. -/
def tenInts : List PyVal := (List.range 10).map (fun i => PyVal.int i)

/-- C8 counterexample: with `max_rows = 0`, a JSON object containing no
list-valued property is still wrapped as one record — one record is more
than `max_rows`, refuting the cap for every `max_rows` value. -/
theorem c8_counterexample :
    ¬((jsonObjectBranch [(sl "a", PyVal.int 1)] 0).length ≤ 0) := by decide

/-- C8 (amended): every multi-record tier emits at most `max_rows` records
(JSON array, JSON container list, delimited reader loop, manual split,
opaque lines); the JSON object-wrap and XML tiers always emit exactly one
record, so the cap holds there whenever `max_rows ≥ 1`; and a ten-record
JSON array with `max_rows = 3` yields exactly the first three records in
original order. -/
theorem c8_row_cap :
    (∀ (l : List PyVal) (m : Nat) r, jsonRecords (.list l) m = some r →
      r.length ≤ m) ∧
    (∀ (d : PyDict) (m : Nat), 1 ≤ m → (jsonObjectBranch d m).length ≤ m) ∧
    (∀ (rows : List CsvRawRow) (m : Nat), (processCsvRows rows m).length ≤ m) ∧
    (∀ (lines : List Str) (delim : Char) (m : Nat),
      (manualSplitRows lines delim m).length ≤ m) ∧
    (∀ (lines : List Str) (m : Nat), (opaqueRecords lines m).length ≤ m) ∧
    (∀ (root : XmlElem) (m : Nat), 1 ≤ m → (xmlTierRecords root).length ≤ m) ∧
    jsonRecords (.list tenInts) 3 = some [PyVal.int 0, PyVal.int 1, PyVal.int 2] := by
  refine ⟨?_, ?_, ?_, ?_, ?_, ?_, rfl⟩
  · intro l m r h
    simp only [jsonRecords, Option.some.injEq] at h
    subst h
    simp
  · intro d m hm
    unfold jsonObjectBranch
    cases candidateLoop containerKeys d with
    | some l => simp
    | none =>
      cases firstListValue d with
      | some l => simp
      | none => simpa using hm
  · intro rows m
    calc (processCsvRows rows m).length
        ≤ ((rows.take m).map cleanCsvRow).length := List.length_filter_le _ _
      _ ≤ m := by simp
  · intro lines delim m
    cases lines with
    | nil => simp [manualSplitRows]
    | cons line0 rest =>
      calc (manualSplitRows (line0 :: rest) delim m).length
          ≤ ((rest.take m).map (manualRow (manualHeader line0 delim) delim)).length :=
            List.length_filter_le _ _
        _ ≤ m := by simp
  · intro lines m
    simp [opaqueRecords]
  · intro root m hm
    simpa [xmlTierRecords] using hm

/-- C8 witness: the amended cap theorem applied at concrete inputs,
discharging each hypothesis. -/
theorem c8_witness :
    ([PyVal.int 0].length ≤ 5) ∧
    ((jsonObjectBranch [] 1).length ≤ 1) ∧
    ((xmlTierRecords (XmlElem.mk (sl "a") Option.none [])).length ≤ 1) :=
  ⟨c8_row_cap.1 [PyVal.int 0] 5 [PyVal.int 0] rfl,
   c8_row_cap.2.1 [] 1 (by decide),
   c8_row_cap.2.2.2.2.2.1 (XmlElem.mk (sl "a") Option.none []) 1 (by decide)⟩

/-! ## C7 — JSON object unwrapping -/

/-- The candidate-key loop equals a `find?` over the candidate list. -/
theorem candidateLoop_eq_find (cs : List Str) (d : PyDict) :
    candidateLoop cs d =
      match cs.find? (fun c => ((List.lookup c d).map PyVal.isList).getD false) with
      | some c =>
        match List.lookup c d with
        | some (.list l) => some l
        | _ => Option.none
      | Option.none => Option.none := by
  induction cs with
  | nil => rfl
  | cons c cs ih =>
    cases h : List.lookup c d with
    | none => simp [candidateLoop, List.find?, h, ih]
    | some v => cases v <;> simp [candidateLoop, List.find?, h, ih, PyVal.isList]

/-- The top-level list-value scan equals a `find?` over the entries. -/
theorem firstListValue_eq_find (d : PyDict) :
    firstListValue d =
      match d.find? (fun kv => kv.2.isList) with
      | some (_, .list l) => some l
      | some _ => Option.none
      | Option.none => Option.none := by
  induction d with
  | nil => rfl
  | cons kv rest ih =>
    obtain ⟨k, v⟩ := kv
    cases v <;> simp [firstListValue, List.find?, PyVal.isList, ih]

/-- C7 counterexample: for the object `{"x": {"inner": [1, 2]}}` — whose
only list-valued property sits at nesting depth two — the code wraps the
whole object as a single record, while the claim's any-depth fallback rule
would return the nested list's elements. -/
theorem c7_counterexample :
    jsonObjectBranch
        [(sl "x", PyVal.dict [(sl "inner", PyVal.list [PyVal.int 1, PyVal.int 2])])] 200 ≠
      jsonObjectUnwrapClaim
        [(sl "x", PyVal.dict [(sl "inner", PyVal.list [PyVal.int 1, PyVal.int 2])])] 200 := by
  intro h
  exact absurd (congrArg List.length h) (by decide)

/-- C7 (amended): when the JSON parse yields a top-level object, the first
of the conventional container keys (shipments, items, data, records,
payload) whose value is a list is returned capped; failing that, the first
list-valued *top-level* property (in insertion order); failing that, the
object itself is wrapped as a single-element record list. -/
theorem c7_object_unwrap_top_level (d : PyDict) (m : Nat) :
    jsonObjectBranch d m = jsonObjectUnwrapSpec d m := by
  unfold jsonObjectBranch jsonObjectUnwrapSpec
  rw [candidateLoop_eq_find, firstListValue_eq_find]
  cases hfind : containerKeys.find?
      (fun c => ((List.lookup c d).map PyVal.isList).getD false) with
  | some c =>
    have hp := List.find?_some hfind
    cases hlook : List.lookup c d with
    | none => simp [hlook] at hp
    | some v =>
      cases v <;> simp_all [PyVal.isList]
  | none =>
    cases hkv : d.find? (fun kv => kv.2.isList) with
    | some kv =>
      obtain ⟨k, v⟩ := kv
      have hp := List.find?_some hkv
      cases v <;> simp_all [PyVal.isList]
    | none => simp

/-! ## C9 — validate_list -/

/-- The results list of the validation loop, described positionally. -/
theorem validateLoop_fst (check : PyVal → Option Str) (i0 : Nat) (objs : List PyVal) :
    (validateLoop check i0 objs).1 =
      (objs.enumFrom i0).map (fun p =>
        match check p.2 with
        | Option.none => ⟨p.1, true, Option.none, p.2⟩
        | some msg => ⟨p.1, false, some msg, p.2⟩) := by
  induction objs generalizing i0 with
  | nil => rfl
  | cons o rest ih =>
    cases h : check o <;> simp [validateLoop, List.enumFrom, h, ih]

/-- C9: `validate_list` raises exactly when the schema document failed to
load; otherwise it returns one result per object, in input order, carrying
the object, with `valid` true exactly for conforming objects and the
checker's error message otherwise — a violation never stops the loop. -/
theorem c9_validate_list_behavior :
    (∀ (check : PyVal → PyVal → Option Str) (objs : List PyVal),
      validate_list Option.none check objs =
        Except.error (sl "Failed to load canonical schema file")) ∧
    (∀ (schema : PyVal) (check : PyVal → PyVal → Option Str) (objs : List PyVal),
      ∃ results n,
        validate_list (some schema) check objs = Except.ok (results, n) ∧
        results.length = objs.length ∧
        (∀ i (hi : i < objs.length) (hr : i < results.length),
          (results.get ⟨i, hr⟩).index = i ∧
          (results.get ⟨i, hr⟩).object = objs.get ⟨i, hi⟩ ∧
          ((results.get ⟨i, hr⟩).valid = true ↔
            check schema (objs.get ⟨i, hi⟩) = Option.none) ∧
          (results.get ⟨i, hr⟩).errors = check schema (objs.get ⟨i, hi⟩))) := by
  constructor
  · intro check objs
    rfl
  · intro schema check objs
    refine ⟨(validateLoop (check schema) 0 objs).1,
      (validateLoop (check schema) 0 objs).2, rfl, ?_, ?_⟩
    · simp [validateLoop_fst]
    · intro i hi hr
      have hget : (validateLoop (check schema) 0 objs).1.get ⟨i, hr⟩ =
          (match check schema (objs.get ⟨i, hi⟩) with
           | Option.none => ⟨i, true, Option.none, objs.get ⟨i, hi⟩⟩
           | some msg => ⟨i, false, some msg, objs.get ⟨i, hi⟩⟩ : ValidationResult) := by
        have h1 := validateLoop_fst (check schema) 0 objs
        rw [List.get_of_eq h1]
        simp [List.getElem_enumFrom]
      rw [hget]
      cases h : check schema (objs.get ⟨i, hi⟩) <;> simp [h]

/-- A concrete conformance checker for the C9 witness: `null` conforms,
everything else fails with the message `"bad"`. -/
def c9chk : PyVal → PyVal → Option Str :=
  fun _ o =>
    match o with
    | .null => Option.none
    | _ => some (sl "bad")

/-- C9 witness: the theorem applied to a loadable schema, a two-object list
with one violation, and to a failed schema load; all hypotheses are
discharged at the concrete input. -/
theorem c9_witness :
    (validate_list Option.none c9chk [PyVal.int 1] =
      Except.error (sl "Failed to load canonical schema file")) ∧
    (∃ results n,
      validate_list (some PyVal.null) c9chk [PyVal.null, PyVal.int 3] =
        Except.ok (results, n) ∧
      results.length = 2 ∧
      ∃ (hr : 1 < results.length),
        (results.get ⟨1, hr⟩).valid = false ∧
        (results.get ⟨1, hr⟩).errors = some (sl "bad")) := by
  refine ⟨c9_validate_list_behavior.1 c9chk [PyVal.int 1], ?_⟩
  obtain ⟨results, n, h1, h2, h3⟩ :=
    c9_validate_list_behavior.2 PyVal.null c9chk [PyVal.null, PyVal.int 3]
  have hr : 1 < results.length := by rw [h2]; decide
  obtain ⟨hidx, hobj, hiff, herr⟩ := h3 1 (by decide) hr
  refine ⟨results, n, h1, by simpa using h2, hr, ?_, ?_⟩
  · cases hv : (results.get ⟨1, hr⟩).valid
    · rfl
    · have := hiff.mp hv
      simp [c9chk] at this
  · simpa [c9chk] using herr

/-! ## C6 — delimiter detection -/

/-- Modelled from the claim's words: the same counting rule but with ties
broken by the candidate order comma, semicolon, tab, pipe. -/
def detectDelimiterClaim (text : Str) : Char :=
  let lines := (pySplitlines text).filter strNonblank
  let sample :=
    if lines ≠ [] then List.intercalate ['\n'] (lines.take 10)
    else text.take 2000
  ([',', ';', '\t', '|'].foldl
    (fun acc c =>
      let cnt : Int := (sample.count c : Nat)
      if cnt > acc.2 then (c, cnt) else acc)
    (',', (-1 : Int))).1

/-- C6 counterexample: on `"a\tb;c"` tab and semicolon occur once each and
comma not at all; the code's candidate order (comma, tab, semicolon, pipe)
selects tab, while the claim's order (comma, semicolon, tab, pipe) would
select semicolon. -/
theorem c6_counterexample :
    detect_csv_delimiter (sl "a\tb;c") = '\t' ∧
    detectDelimiterClaim (sl "a\tb;c") = ';' ∧
    (delimSample (sl "a\tb;c")).count ';' =
      (delimSample (sl "a\tb;c")).count '\t' :=
  ⟨by decide, by decide, by decide⟩

/-- C6 (amended): `detect_csv_delimiter` returns the candidate with the
highest occurrence count over the sample (first 10 non-empty lines), ties
broken by the code's candidate order comma, tab, semicolon, pipe; on the
claim's concrete example (a comma/semicolon tie) comma is selected. -/
theorem c6_delimiter_first_maximizer :
    (∀ t : Str,
      detect_csv_delimiter t ∈ delimCandidates ∧
      (∀ c ∈ delimCandidates,
        (delimSample t).count c ≤ (delimSample t).count (detect_csv_delimiter t)) ∧
      (∀ c ∈ delimCandidates,
        (delimSample t).count c = (delimSample t).count (detect_csv_delimiter t) →
          delimIdx (detect_csv_delimiter t) ≤ delimIdx c)) ∧
    detect_csv_delimiter (sl "a,b;c\n1,2;3\n4,5;6") = ',' := by
  constructor
  · intro t
    have hd : detect_csv_delimiter t =
        (delimCandidates.foldl
          (fun acc c =>
            let cnt : Int := ((delimSample t).count c : Nat)
            if cnt > acc.2 then (c, cnt) else acc)
          (',', (-1 : Int))).1 := rfl
    rw [hd]
    simp only [delimCandidates, List.foldl]
    split_ifs <;>
      refine ⟨by simp [delimCandidates], ?_, ?_⟩ <;>
      · intro c hc
        fin_cases hc <;> simp [delimIdx] <;> omega
  · decide

/-- C6 witness: the amended theorem applied at concrete inputs — a count
bound on a semicolon file, and the tie-break at a comma/tab tie. -/
theorem c6_witness :
    ((delimSample (sl "x;y")).count ';' ≤
      (delimSample (sl "x;y")).count (detect_csv_delimiter (sl "x;y"))) ∧
    (delimIdx (detect_csv_delimiter (sl "a,b\tc")) ≤ delimIdx '\t') :=
  ⟨(c6_delimiter_first_maximizer.1 (sl "x;y")).2.1 ';' (by decide),
   (c6_delimiter_first_maximizer.1 (sl "a,b\tc")).2.2 '\t' (by decide) (by decide)⟩

/-! ## C3 — absent-or-empty source values -/

/-- C3 counterexample: a whitespace-only source value is neither absent nor
the empty string, so it is not skipped; the coercion strips it to `""` and
stores it — the built canonical object carries an empty-string leaf at
`a.b`, refuting the claim's "never contains an empty-string value at any
leaf". -/
theorem c3_counterexample :
    apply_mappings [[(sl "f", PyVal.str (sl "  "))]]
        [⟨some (sl "f"), some (sl "a.b")⟩] =
      [[(sl "a", PyVal.dict [(sl "b", PyVal.str [])])]] := rfl

/-- C3 (amended): a mapping entry whose resolved source value is absent
(`None`) or exactly the empty string contributes no leaf — the per-entry
step of the builder leaves the object unchanged.  (The claim's consequence
fails: whitespace-only strings are stripped to `""` after the skip test and
stored, per the counterexample.) -/
theorem c3_absent_or_empty_entry_skipped (rec canon : PyDict) (f : FieldEntry)
    (h : resolveValue rec f.partner_field = PyVal.null ∨
         resolveValue rec f.partner_field = PyVal.str []) :
    applyEntry rec canon f = canon := by
  unfold applyEntry
  cases hm : f.mapped_to with
  | none => rfl
  | some mapped =>
    by_cases hmt : mapped = []
    · simp [hmt]
    · rcases h with h | h <;> simp [hmt, h, PyVal.isNull, PyVal.isEmptyStr]

/-- C3 witness: the amended skip theorem applied to a record that lacks the
source field, leaving a non-trivial object unchanged. -/
theorem c3_witness :
    applyEntry [] [(sl "k", PyVal.int 1)]
        ⟨some (sl "missing"), some (sl "x")⟩ =
      [(sl "k", PyVal.int 1)] :=
  c3_absent_or_empty_entry_skipped [] [(sl "k", PyVal.int 1)]
    ⟨some (sl "missing"), some (sl "x")⟩ (Or.inl rfl)

/-! ## C4 — phone values are strings -/

/-- Looking up the key just assigned returns the assigned value. -/
theorem lookup_assocPut_self {β : Type _} (m : List (Str × β)) (k : Str) (v : β) :
    List.lookup k (assocPut m k v) = some v := by
  induction m with
  | nil => simp [assocPut, List.lookup]
  | cons kv rest ih =>
    obtain ⟨k', v'⟩ := kv
    by_cases h : k' = k
    · subst h
      simp [assocPut, List.lookup]
    · have hbe : (k == k') = false := beq_eq_false_iff_ne.mpr (Ne.symm h)
      simp [assocPut, h, List.lookup, hbe, ih]

/-- Assigning one key leaves the lookup of any other key unchanged. -/
theorem lookup_assocPut_ne {β : Type _} (m : List (Str × β)) (k k' : Str) (v : β)
    (h : k' ≠ k) :
    List.lookup k' (assocPut m k v) = List.lookup k' m := by
  have hbe : (k' == k) = false := beq_eq_false_iff_ne.mpr h
  induction m with
  | nil => simp [assocPut, List.lookup, hbe]
  | cons kv rest ih =>
    obtain ⟨k0, v0⟩ := kv
    by_cases h0 : k0 = k
    · subst h0
      simp [assocPut, List.lookup, hbe]
    · by_cases h1 : k' = k0
      · subst h1
        simp [assocPut, h0, List.lookup]
      · have hbe1 : (k' == k0) = false := beq_eq_false_iff_ne.mpr h1
        simp [assocPut, h0, List.lookup, hbe1, ih]

/-- `isNull` characterises the `null` value. -/
theorem isNull_iff (v : PyVal) : v.isNull = true ↔ v = PyVal.null := by
  cases v <;> simp [PyVal.isNull]

/-- After the phone post-step, a non-None value found at
`customer_contact.phone` is a string. -/
theorem phoneToString_phone_isStr (canon cc : PyDict) (ph : PyVal)
    (h1 : List.lookup ccKey (phoneToString canon) = some (PyVal.dict cc))
    (h2 : List.lookup phoneKey cc = some ph)
    (h3 : ph ≠ PyVal.null) : ph.isStr = true := by
  unfold phoneToString at h1
  cases hcc : List.lookup ccKey canon with
  | none =>
    simp only [hcc] at h1
    cases h1
  | some v =>
    cases v with
    | dict cc0 =>
      simp only [hcc] at h1
      cases hph : List.lookup phoneKey cc0 with
      | none =>
        simp only [hph] at h1
        rw [hcc] at h1
        injection h1 with h1
        injection h1 with h1
        subst h1
        rw [h2] at hph
        cases hph
      | some ph0 =>
        simp only [hph] at h1
        by_cases hcond : (ph0.isNull || ph0.isStr) = true
        · rw [if_pos hcond] at h1
          rw [hcc] at h1
          injection h1 with h1
          injection h1 with h1
          subst h1
          rw [h2] at hph
          injection hph with hph
          subst hph
          rcases Bool.or_eq_true_iff.mp hcond with hn | hs
          · exact absurd ((isNull_iff _).mp hn) h3
          · exact hs
        · rw [if_neg hcond] at h1
          simp only [assocSet] at h1
          rw [lookup_assocPut_self] at h1
          injection h1 with h1
          injection h1 with h1
          subst h1
          rw [lookup_assocPut_self] at h2
          injection h2 with h2
          subst h2
          rfl
    | null => simp_all
    | bool b => simp_all
    | int n => simp_all
    | float lit => simp_all
    | str s => simp_all
    | list l => simp_all

/-- C4 (amended): in every canonical object built by `apply_mappings`, a
value present at `customer_contact.phone` that is not `None` is a string,
whatever type the scalar coercion produced.  (A Python `None` can sit at
that path when a whole sub-dict containing `phone: None` is mapped onto
`customer_contact`; the post-step leaves it, per the counterexample.) -/
theorem c4_phone_value_is_string (records : List PyDict) (fields : List FieldEntry)
    (canon cc : PyDict) (ph : PyVal)
    (hc : canon ∈ apply_mappings records fields)
    (h1 : List.lookup ccKey canon = some (PyVal.dict cc))
    (h2 : List.lookup phoneKey cc = some ph)
    (h3 : ph ≠ PyVal.null) : ph.isStr = true := by
  simp only [apply_mappings, List.mem_map] at hc
  obtain ⟨rec, _, hbuild⟩ := hc
  subst hbuild
  unfold buildOne at h1
  exact phoneToString_phone_isStr _ cc ph h1 h2 h3

/-- C4 counterexample: mapping a whole source sub-dict `{"phone": None}`
onto `customer_contact` leaves a Python `None` at
`customer_contact.phone` — a non-string value at the path, refuting the
claim for every value present there. -/
theorem c4_counterexample :
    apply_mappings [[(sl "src", PyVal.dict [(phoneKey, PyVal.null)])]]
        [⟨some (sl "src"), some ccKey⟩] =
      [[(ccKey, PyVal.dict [(phoneKey, PyVal.null)])]] ∧
    (PyVal.null).isStr = false :=
  ⟨rfl, rfl⟩

/-- C4 witness: the claim's concrete example — a numeric phone `5551234`
mapped to `customer_contact.phone` is stored as the string `"5551234"`, and
the amended theorem applied there confirms it is a string. -/
theorem c4_witness :
    apply_mappings [[(ccKey, PyVal.dict [(phoneKey, PyVal.int 5551234)])]]
        [⟨some (sl "customer_contact.phone"), some (sl "customer_contact.phone")⟩] =
      [[(ccKey, PyVal.dict [(phoneKey, PyVal.str (sl "5551234"))])]] ∧
    (PyVal.str (sl "5551234")).isStr = true :=
  ⟨rfl,
   c4_phone_value_is_string
    [[(ccKey, PyVal.dict [(phoneKey, PyVal.int 5551234)])]]
    [⟨some (sl "customer_contact.phone"), some (sl "customer_contact.phone")⟩]
    [(ccKey, PyVal.dict [(phoneKey, PyVal.str (sl "5551234"))])]
    [(phoneKey, PyVal.str (sl "5551234"))]
    (PyVal.str (sl "5551234"))
    (List.mem_singleton.mpr rfl) rfl rfl (by simp)⟩

/-! ## C2 — flatten-then-lookup round trip

The round trip fails on bracket-indexed list paths (counterexample below);
the amended claim restricts records to nested dicts whose keys are
non-empty and dot-free.  The predicates and lemmas below delimit that
class and relate `flatten_record` paths to `get_nested_value`. -/

/-- A key usable in round-trip paths: non-empty and containing no dot. -/
def goodKey (k : Str) : Bool := !k.isEmpty && !k.contains '.'

mutual

/-- Trees on which the round trip is claimed: nested dicts with good,
per-level-unique keys and scalar leaves (no lists). -/
def goodTree : PyVal → Bool
  | .dict l => goodDict l
  | .list _ => false
  | _ => true

/-- The dict side of `goodTree`. -/
def goodDict : List (Str × PyVal) → Bool
  | [] => true
  | (k, v) :: rest =>
    goodKey k && goodTree v && rest.all (fun kv => !(kv.1 == k)) && goodDict rest

end

/-- The pure segment walk: repeatedly look the next segment up in a dict. -/
def walkPure : List Str → PyVal → Option PyVal
  | [], t => some t
  | s :: rest, t =>
    match t with
    | .dict l =>
      match List.lookup s l with
      | some u => walkPure rest u
      | Option.none => Option.none
    | _ => Option.none

/-- Fold a list of keys onto a prefix with `joinKey`. -/
def joinSegs : Str → List Str → Str
  | pre, [] => pre
  | pre, s :: rest => joinSegs (joinKey pre s) rest

/-- Structural induction over `PyVal` with member hypotheses for the nested
lists. -/
def PyVal.inductionOn {P : PyVal → Prop} (t : PyVal)
    (hnull : P .null) (hbool : ∀ b, P (.bool b)) (hint : ∀ n, P (.int n))
    (hfloat : ∀ s, P (.float s)) (hstr : ∀ s, P (.str s))
    (hlist : ∀ l, (∀ x ∈ l, P x) → P (.list l))
    (hdict : ∀ l, (∀ kv ∈ l, P kv.2) → P (.dict l)) : P t :=
  match t with
  | .null => hnull
  | .bool b => hbool b
  | .int n => hint n
  | .float s => hfloat s
  | .str s => hstr s
  | .list l =>
    hlist l (fun x _ =>
      PyVal.inductionOn x hnull hbool hint hfloat hstr hlist hdict)
  | .dict l =>
    hdict l (fun kv _ =>
      PyVal.inductionOn kv.2 hnull hbool hint hfloat hstr hlist hdict)
termination_by sizeOf t
decreasing_by
  · rename_i hx
    have := List.sizeOf_lt_of_mem hx
    simp only [PyVal.list.sizeOf_spec]
    omega
  · rename_i kv hkv
    have h1 := List.sizeOf_lt_of_mem hkv
    obtain ⟨a, b⟩ := kv
    simp only [PyVal.dict.sizeOf_spec, Prod.mk.sizeOf_spec] at h1 ⊢
    omega

/-- A split is never the empty list of fields. -/
theorem pySplitChar_ne_nil (c : Char) (s : Str) : pySplitChar c s ≠ [] := by
  induction s with
  | nil => simp [pySplitChar]
  | cons x rest ih =>
    by_cases hx : x = c
    · simp [pySplitChar, hx]
    · cases h : pySplitChar c rest with
      | nil => exact absurd h ih
      | cons s0 ss => simp [pySplitChar, hx, h]

/-- Splitting distributes over an explicit separator occurrence. -/
theorem pySplitChar_append_sep (c : Char) (a b : Str) :
    pySplitChar c (a ++ c :: b) = pySplitChar c a ++ pySplitChar c b := by
  induction a with
  | nil => simp [pySplitChar]
  | cons x a ih =>
    by_cases hx : x = c
    · simp [pySplitChar, hx, ih]
    · cases h : pySplitChar c a with
      | nil => exact absurd h (pySplitChar_ne_nil c a)
      | cons s0 ss =>
        simp only [List.cons_append, pySplitChar, hx, if_false, ih, h,
          List.append_eq]

/-- A separator-free string splits to itself. -/
theorem pySplitChar_no_sep (c : Char) (a : Str) (h : c ∉ a) :
    pySplitChar c a = [a] := by
  induction a with
  | nil => rfl
  | cons x rest ih =>
    have hx : ¬(x = c) := fun he => h (he ▸ List.mem_cons_self x rest)
    have hr : c ∉ rest := fun hc => h (List.mem_cons_of_mem x hc)
    simp [pySplitChar, hx, ih hr]

/-- Joining keys onto a non-empty prefix appends dot-prefixed segments. -/
theorem joinSegs_flat (segs : List Str) (pre : Str) (hpre : pre ≠ []) :
    joinSegs pre segs = pre ++ segs.flatMap (fun s => '.' :: s) := by
  induction segs generalizing pre with
  | nil => simp [joinSegs]
  | cons s rest ih =>
    have h1 : joinKey pre s = pre ++ '.' :: s := by simp [joinKey, hpre]
    have h2 : pre ++ '.' :: s ≠ [] := by simp
    simp [joinSegs, h1, ih _ h2]

/-- Splitting recovers the segments of a dot-joined good path. -/
theorem split_joinSegs (segs : List Str) (pre : Str)
    (hpre : '.' ∉ pre) (hsegs : ∀ s ∈ segs, '.' ∉ s) :
    pySplitChar '.' (pre ++ segs.flatMap (fun s => '.' :: s)) = pre :: segs := by
  induction segs generalizing pre with
  | nil => simpa using pySplitChar_no_sep '.' pre hpre
  | cons s rest ih =>
    have h1 : pre ++ (s :: rest).flatMap (fun t => '.' :: t) =
        pre ++ '.' :: (s ++ rest.flatMap (fun t => '.' :: t)) := by simp
    rw [h1, pySplitChar_append_sep, pySplitChar_no_sep '.' pre hpre]
    have h2 := ih s (hsegs s (List.mem_cons_self s rest))
      (fun t ht => hsegs t (List.mem_cons_of_mem s ht))
    rw [h2]
    rfl

/-- A successful pure walk is what `walkParts` computes (the underscore
fallback is never taken). -/
theorem walkParts_of_walkPure (obj : PyDict) (path : Str) (segs : List Str)
    (t v : PyVal) (h : walkPure segs t = some v) :
    walkParts obj path segs t = v := by
  induction segs generalizing t with
  | nil =>
    simp only [walkPure, Option.some.injEq] at h
    simp [walkParts, h]
  | cons s rest ih =>
    cases t with
    | dict l =>
      cases hl : List.lookup s l with
      | none => simp [walkPure, hl] at h
      | some u =>
        simp only [walkPure, hl] at h
        simp [walkParts, hl, ih u h]
    | null => simp [walkPure] at h
    | bool b => simp [walkPure] at h
    | int n => simp [walkPure] at h
    | float lit => simp [walkPure] at h
    | str s0 => simp [walkPure] at h
    | list l => simp [walkPure] at h

/-- Membership in an assignment result comes from the pair or the map. -/
theorem mem_assocPut {β : Type _} (x : Str × β) (m : List (Str × β))
    (k : Str) (v : β) : x ∈ assocPut m k v → x = (k, v) ∨ x ∈ m := by
  induction m with
  | nil =>
    intro h
    simpa [assocPut] using h
  | cons kv rest ih =>
    obtain ⟨k0, v0⟩ := kv
    intro h
    by_cases hk : k0 = k
    · simp only [assocPut, if_pos hk] at h
      rcases List.mem_cons.mp h with h | h
      · exact Or.inl h
      · exact Or.inr (List.mem_cons_of_mem _ h)
    · simp only [assocPut, if_neg hk] at h
      rcases List.mem_cons.mp h with h | h
      · exact Or.inr (h ▸ List.mem_cons_self _ _)
      · rcases ih h with h1 | h1
        · exact Or.inl h1
        · exact Or.inr (List.mem_cons_of_mem _ h1)

/-- Membership after folding assignments comes from the seed or the pairs. -/
theorem mem_foldl_assocSet (pairs : List (Str × PyVal)) (acc : PyDict)
    (x : Str × PyVal) :
    x ∈ pairs.foldl (fun a kv => assocSet a kv.1 kv.2) acc →
      x ∈ acc ∨ x ∈ pairs := by
  induction pairs generalizing acc with
  | nil => exact fun h => Or.inl h
  | cons kv rest ih =>
    intro h
    rcases ih (assocSet acc kv.1 kv.2) h with h1 | h1
    · rcases mem_assocPut x acc kv.1 kv.2 h1 with h2 | h2
      · right
        rw [h2]
        exact List.mem_cons_self _ _
      · exact Or.inl h2
    · exact Or.inr (List.mem_cons_of_mem _ h1)

/-- Every pair of `flatten_record rec` is a flattened pair of the record. -/
theorem mem_flatten_record (rec : PyDict) (x : Str × PyVal)
    (h : x ∈ flatten_record rec) : x ∈ flattenVal (.dict rec) [] := by
  unfold flatten_record pyDictOf at h
  rcases mem_foldl_assocSet _ [] x h with h1 | h1
  · cases h1
  · exact h1

/-- A pair flattened from a dict comes from one of its entries, with the
prefix extended by that entry's key. -/
theorem mem_flattenDictEntries (l : List (Str × PyVal)) (pre : Str)
    (x : Str × PyVal) : x ∈ flattenDictEntries l pre →
    ∃ k u, (k, u) ∈ l ∧ x ∈ flattenVal u (joinKey pre k) := by
  induction l with
  | nil => exact fun h => absurd h (List.not_mem_nil x)
  | cons kv rest ih =>
    obtain ⟨k0, u0⟩ := kv
    intro h
    simp only [flattenDictEntries] at h
    rcases List.mem_append.mp h with h1 | h1
    · exact ⟨k0, u0, List.mem_cons_self _ _, h1⟩
    · obtain ⟨k, u, hm, hx⟩ := ih h1
      exact ⟨k, u, List.mem_cons_of_mem _ hm, hx⟩

/-- What a good key gives: non-empty and dot-free. -/
theorem goodKey_spec (k : Str) (h : goodKey k = true) : k ≠ [] ∧ '.' ∉ k := by
  simp only [goodKey, Bool.and_eq_true, Bool.not_eq_true'] at h
  obtain ⟨h1, h2⟩ := h
  constructor
  · intro he
    rw [he] at h1
    simp at h1
  · intro hm
    have hc : List.contains k '.' = true := List.elem_iff.mpr hm
    rw [hc] at h2
    cases h2

/-- Each entry of a good dict has a good key and a good value. -/
theorem goodDict_entry (l : List (Str × PyVal)) (hg : goodDict l = true)
    (k : Str) (u : PyVal) (h : (k, u) ∈ l) :
    goodKey k = true ∧ goodTree u = true := by
  induction l with
  | nil => cases h
  | cons kv rest ih =>
    obtain ⟨k0, u0⟩ := kv
    simp only [goodDict, Bool.and_eq_true] at hg
    obtain ⟨⟨⟨hk0, hu0⟩, _⟩, hrest⟩ := hg
    rcases List.mem_cons.mp h with h1 | h1
    · injection h1 with ha hb
      subst ha
      subst hb
      exact ⟨hk0, hu0⟩
    · exact ih hrest h1

/-- In a good dict, lookup finds exactly the member pair (keys are unique
per level). -/
theorem goodDict_lookup (l : List (Str × PyVal)) (hg : goodDict l = true)
    (k : Str) (u : PyVal) (h : (k, u) ∈ l) : List.lookup k l = some u := by
  induction l with
  | nil => cases h
  | cons kv rest ih =>
    obtain ⟨k0, u0⟩ := kv
    simp only [goodDict, Bool.and_eq_true] at hg
    obtain ⟨⟨_, huniq⟩, hrest⟩ := hg
    rcases List.mem_cons.mp h with h1 | h1
    · injection h1 with ha hb
      subst ha
      subst hb
      simp [List.lookup]
    · have hne : k ≠ k0 := by
        intro he
        subst he
        have := List.all_eq_true.mp huniq (k, u) h1
        simp at this
      have hbe : (k == k0) = false := beq_eq_false_iff_ne.mpr hne
      simp [List.lookup, hbe, ih hrest h1]

/-- In a good dict, a path containing a dot is never a literal key. -/
theorem lookup_none_of_dot (l : List (Str × PyVal)) (p : Str)
    (hkeys : ∀ kv ∈ l, '.' ∉ kv.1) (hp : '.' ∈ p) :
    List.lookup p l = Option.none := by
  induction l with
  | nil => rfl
  | cons kv rest ih =>
    obtain ⟨k0, v0⟩ := kv
    have hk0 : '.' ∉ k0 := hkeys (k0, v0) (List.mem_cons_self _ _)
    have hne : p ≠ k0 := fun he => hk0 (he ▸ hp)
    have hbe : (p == k0) = false := beq_eq_false_iff_ne.mpr hne
    simp [List.lookup, hbe,
      ih (fun kv h => hkeys kv (List.mem_cons_of_mem _ h))]

/-- Every flattened pair of a good tree is addressed by a list of good key
segments: the path is their dot-join onto the prefix and the pure segment
walk reaches exactly the flattened value; for a dict the segment list is
non-empty. -/
theorem flattenVal_good (t : PyVal) :
    ∀ pre p v, goodTree t = true → (p, v) ∈ flattenVal t pre →
      ∃ segs : List Str,
        (∀ s ∈ segs, goodKey s = true) ∧
        p = joinSegs pre segs ∧
        walkPure segs t = some v ∧
        (∀ d, t = PyVal.dict d → segs ≠ []) := by
  induction t using PyVal.inductionOn with
  | hnull =>
    intro pre p v _ hmem
    simp only [flattenVal, List.mem_singleton] at hmem
    injection hmem with h1 h2
    exact ⟨[], by simp, by simp [joinSegs, h1], by simp [walkPure, h2],
      fun d hd => by cases hd⟩
  | hbool b =>
    intro pre p v _ hmem
    simp only [flattenVal, List.mem_singleton] at hmem
    injection hmem with h1 h2
    exact ⟨[], by simp, by simp [joinSegs, h1], by simp [walkPure, h2],
      fun d hd => by cases hd⟩
  | hint n =>
    intro pre p v _ hmem
    simp only [flattenVal, List.mem_singleton] at hmem
    injection hmem with h1 h2
    exact ⟨[], by simp, by simp [joinSegs, h1], by simp [walkPure, h2],
      fun d hd => by cases hd⟩
  | hfloat s =>
    intro pre p v _ hmem
    simp only [flattenVal, List.mem_singleton] at hmem
    injection hmem with h1 h2
    exact ⟨[], by simp, by simp [joinSegs, h1], by simp [walkPure, h2],
      fun d hd => by cases hd⟩
  | hstr s =>
    intro pre p v _ hmem
    simp only [flattenVal, List.mem_singleton] at hmem
    injection hmem with h1 h2
    exact ⟨[], by simp, by simp [joinSegs, h1], by simp [walkPure, h2],
      fun d hd => by cases hd⟩
  | hlist l ih =>
    intro pre p v hg _
    simp [goodTree] at hg
  | hdict l ih =>
    intro pre p v hg hmem
    have hgd : goodDict l = true := by simpa [goodTree] using hg
    simp only [flattenVal] at hmem
    obtain ⟨k, u, hkl, hx⟩ := mem_flattenDictEntries l pre (p, v) hmem
    obtain ⟨hkgood, hugood⟩ := goodDict_entry l hgd k u hkl
    obtain ⟨segs', hgood', hp', hwalk', _⟩ :=
      ih (k, u) hkl (joinKey pre k) p v hugood hx
    refine ⟨k :: segs', ?_, ?_, ?_, ?_⟩
    · intro s hs
      rcases List.mem_cons.mp hs with h1 | h1
      · exact h1 ▸ hkgood
      · exact hgood' s h1
    · simpa [joinSegs] using hp'
    · simp [walkPure, goodDict_lookup l hgd k u hkl, hwalk']
    · intro d _
      simp

/-- C2 (amended): for records built purely of nested dicts whose keys are
non-empty and dot-free, every (path, value) pair produced by
`flatten_record` is recovered exactly by `get_nested_value`. -/
theorem c2_good_round_trip (rec : PyDict) (hg : goodDict rec = true)
    (p : Str) (v : PyVal) (hmem : (p, v) ∈ flatten_record rec) :
    get_nested_value rec p = v := by
  have hmem' := mem_flatten_record rec _ hmem
  obtain ⟨segs, hgood, hp, hwalk, hne⟩ :=
    flattenVal_good (.dict rec) [] p v (by simpa [goodTree] using hg) hmem'
  cases segs with
  | nil => exact absurd rfl (hne rec rfl)
  | cons s1 rest =>
    have hs1 := goodKey_spec s1 (hgood s1 (List.mem_cons_self _ _))
    have hp1 : p = joinSegs s1 rest := by
      simpa [joinSegs, joinKey] using hp
    cases rest with
    | nil =>
      have hps : p = s1 := by simpa [joinSegs] using hp1
      subst hps
      cases hl : List.lookup p rec with
      | none => simp [walkPure, hl] at hwalk
      | some u =>
        simp only [walkPure, hl, Option.some.injEq] at hwalk
        simp [get_nested_value, hs1.1, hl, hwalk]
    | cons s2 rest2 =>
      have hflat : p = s1 ++ (s2 :: rest2).flatMap (fun s => '.' :: s) :=
        hp1.trans (joinSegs_flat (s2 :: rest2) s1 hs1.1)
      have hdot : '.' ∈ p := by
        rw [hflat]
        simp
      have hpne : p ≠ [] := by
        rw [hflat]
        simp [hs1.1]
      have hsplit : pySplitChar '.' p = s1 :: s2 :: rest2 := by
        rw [hflat]
        exact split_joinSegs (s2 :: rest2) s1 hs1.2
          (fun s hsm => (goodKey_spec s (hgood s (List.mem_cons_of_mem _ hsm))).2)
      have hkeys : ∀ kv ∈ rec, '.' ∉ kv.1 := by
        intro kv hkv
        exact (goodKey_spec kv.1
          (goodDict_entry rec hg kv.1 kv.2 (by simpa using hkv)).1).2
      have hlook := lookup_none_of_dot rec p hkeys hdot
      have hwp := walkParts_of_walkPure rec p (s1 :: s2 :: rest2) (.dict rec) v hwalk
      simp [get_nested_value, hpne, hlook, hsplit, hwp]

/-- C2 counterexample: a record containing a list flattens to the
bracket-indexed path `a[0].b`, but `get_nested_value` cannot follow bracket
paths — it returns `None` instead of the original leaf `5`. -/
theorem c2_counterexample :
    flatten_record [(sl "a", PyVal.list [PyVal.dict [(sl "b", PyVal.int 5)]])] =
      [(sl "a[0].b", PyVal.int 5)] ∧
    get_nested_value [(sl "a", PyVal.list [PyVal.dict [(sl "b", PyVal.int 5)]])]
        (sl "a[0].b") = PyVal.null ∧
    PyVal.null ≠ PyVal.int 5 :=
  ⟨rfl, rfl, by simp⟩

/-- C2 witness: the amended round trip applied to a concrete good record
and a nested leaf path. -/
theorem c2_witness :
    get_nested_value
        [(sl "a", PyVal.dict [(sl "b", PyVal.int 7)]), (sl "c", PyVal.int 1)]
        (sl "a.b") = PyVal.int 7 :=
  c2_good_round_trip
    [(sl "a", PyVal.dict [(sl "b", PyVal.int 7)]), (sl "c", PyVal.int 1)]
    rfl (sl "a.b") (PyVal.int 7)
    (show (sl "a.b", PyVal.int 7) ∈
        [(sl "a.b", PyVal.int 7), (sl "c", PyVal.int 1)] from
      List.mem_cons_self _ _)

end PartnerSync
